import Mathlib

/-!
Verification of the Bigtable byte-store layer of `langchain-google-bigtable`.

The development shallowly embeds the two source files

  * `src/langchain_google_bigtable/async_key_value_store.py`
    (class `AsyncBigtableByteStore`: `amget`, `amset`, `amdelete`, `ayield_keys`), and
  * `src/langchain_google_bigtable/key_value_store.py`
    (class `BigtableByteStore`: `__init__`, `create_sync`, `create`,
    `mget`, `amget`, `mset`, `amset`),

as pure Lean functions.  The remote Bigtable store (an external collaborator of
the repository) is modelled as a list of rows together with the row-read /
row-mutation operations its client contract provides; a row maps a
(column family, column qualifier) address to a newest-first list of cells.
Python byte strings are modelled as lists of naturals, and `str.encode("utf-8")`
is modelled by an executable UTF-8 encoder over Lean `Char` code points.
-/

/-- A Python byte string (the row-key / cell-value type): a list of byte values. -/
abbrev Bytes := List Nat

/-- UTF-8 encoding of a single code point, as produced by Python's
`str.encode("utf-8")` for each character.  Lean's `Char` carries exactly the
Unicode scalar values (surrogates excluded), so the four standard ranges cover
every case. -/
def utf8EncodeChar (c : Char) : List Nat :=
  if c.toNat < 0x80 then [c.toNat]
  else if c.toNat < 0x800 then [0xC0 + c.toNat / 64, 0x80 + c.toNat % 64]
  else if c.toNat < 0x10000 then
    [0xE0 + c.toNat / 4096, 0x80 + (c.toNat / 64) % 64, 0x80 + c.toNat % 64]
  else
    [0xF0 + c.toNat / 0x40000, 0x80 + (c.toNat / 4096) % 64,
     0x80 + (c.toNat / 64) % 64, 0x80 + c.toNat % 64]

/-- UTF-8 encoding of a list of characters. -/
def utf8EncodeList : List Char → List Nat
  | [] => []
  | c :: cs => utf8EncodeChar c ++ utf8EncodeList cs

/-- `s.encode("utf-8")` for a Python `str` modelled as a Lean `String`. -/
def utf8Encode (s : String) : Bytes :=
  utf8EncodeList s.data

/-- Fuelled UTF-8 decoder; one unit of fuel is spent per decoded character, so
any fuel bound above the number of characters (for instance the byte length)
is sufficient. -/
def utf8DecodeGo : Nat → List Nat → List Char
  | 0, _ => []
  | _ + 1, [] => []
  | fuel + 1, b :: bs =>
    if b < 0x80 then
      Char.ofNat b :: utf8DecodeGo fuel bs
    else if b < 0xE0 then
      match bs with
      | b1 :: bs1 => Char.ofNat ((b - 0xC0) * 64 + (b1 - 0x80)) :: utf8DecodeGo fuel bs1
      | [] => []
    else if b < 0xF0 then
      match bs with
      | b1 :: b2 :: bs2 =>
        Char.ofNat ((b - 0xE0) * 4096 + (b1 - 0x80) * 64 + (b2 - 0x80)) :: utf8DecodeGo fuel bs2
      | _ => []
    else
      match bs with
      | b1 :: b2 :: b3 :: bs3 =>
        Char.ofNat ((b - 0xF0) * 0x40000 + (b1 - 0x80) * 4096 + (b2 - 0x80) * 64 + (b3 - 0x80))
          :: utf8DecodeGo fuel bs3
      | _ => []

/-- `bs.decode("utf-8")`, modelling Python's decoding of a row key back to text. -/
def utf8DecodeStr (bs : Bytes) : String :=
  ⟨utf8DecodeGo bs.length bs⟩

theorem utf8EncodeChar_length_pos (c : Char) : 0 < (utf8EncodeChar c).length := by
  unfold utf8EncodeChar
  split
  · simp
  · split
    · simp
    · split <;> simp

theorem utf8EncodeList_length (cs : List Char) :
    cs.length ≤ (utf8EncodeList cs).length := by
  induction cs with
  | nil => simp [utf8EncodeList]
  | cons c cs ih =>
    have := utf8EncodeChar_length_pos c
    simp only [utf8EncodeList, List.length_append, List.length_cons]
    omega

theorem utf8DecodeGo_encode (cs : List Char) :
    ∀ fuel, cs.length ≤ fuel → utf8DecodeGo fuel (utf8EncodeList cs) = cs := by
  induction cs with
  | nil =>
    intro fuel _
    cases fuel <;> rfl
  | cons c cs ih =>
    intro fuel hfuel
    obtain ⟨f, rfl⟩ : ∃ f, fuel = f + 1 := by
      cases fuel
      · simp at hfuel
      · exact ⟨_, rfl⟩
    have hf : cs.length ≤ f := by simp at hfuel; omega
    have hofNat : Char.ofNat c.toNat = c := Char.ofNat_toNat c
    simp only [utf8EncodeList, utf8EncodeChar]
    by_cases h1 : c.toNat < 0x80
    · simp only [if_pos h1, List.cons_append, List.nil_append, utf8DecodeGo, if_pos h1,
        hofNat, ih f hf]
    · by_cases h2 : c.toNat < 0x800
      · have hb : ¬ (0xC0 + c.toNat / 64 < 0x80) := by omega
        have hb' : 0xC0 + c.toNat / 64 < 0xE0 := by omega
        simp only [if_neg h1, if_pos h2, List.cons_append, List.nil_append, utf8DecodeGo,
          if_neg hb, if_pos hb']
        have harith : (0xC0 + c.toNat / 64 - 0xC0) * 64 + (0x80 + c.toNat % 64 - 0x80)
            = c.toNat := by omega
        rw [harith, hofNat, ih f hf]
      · by_cases h3 : c.toNat < 0x10000
        · have hb : ¬ (0xE0 + c.toNat / 4096 < 0x80) := by omega
          have hb' : ¬ (0xE0 + c.toNat / 4096 < 0xE0) := by omega
          have hb'' : 0xE0 + c.toNat / 4096 < 0xF0 := by omega
          simp only [if_neg h1, if_neg h2, if_pos h3, List.cons_append, List.nil_append,
            utf8DecodeGo, if_neg hb, if_neg hb', if_pos hb'']
          have harith : (0xE0 + c.toNat / 4096 - 0xE0) * 4096
              + (0x80 + c.toNat / 64 % 64 - 0x80) * 64 + (0x80 + c.toNat % 64 - 0x80)
              = c.toNat := by omega
          rw [harith, hofNat, ih f hf]
        · have hmax : c.toNat < 0x110000 := by
            have hv : c.toNat < 0xd800 ∨ (0xdfff < c.toNat ∧ c.toNat < 0x110000) := c.valid
            omega
          have hb : ¬ (0xF0 + c.toNat / 0x40000 < 0x80) := by omega
          have hb' : ¬ (0xF0 + c.toNat / 0x40000 < 0xE0) := by omega
          have hb'' : ¬ (0xF0 + c.toNat / 0x40000 < 0xF0) := by omega
          simp only [if_neg h1, if_neg h2, if_neg h3, List.cons_append, List.nil_append,
            utf8DecodeGo, if_neg hb, if_neg hb', if_neg hb'']
          have harith : (0xF0 + c.toNat / 0x40000 - 0xF0) * 0x40000
              + (0x80 + c.toNat / 4096 % 64 - 0x80) * 4096
              + (0x80 + c.toNat / 64 % 64 - 0x80) * 64 + (0x80 + c.toNat % 64 - 0x80)
              = c.toNat := by omega
          rw [harith, hofNat, ih f hf]

theorem utf8DecodeStr_utf8Encode (s : String) : utf8DecodeStr (utf8Encode s) = s := by
  have h := utf8DecodeGo_encode s.data (utf8EncodeList s.data).length
    (utf8EncodeList_length s.data)
  simp only [utf8DecodeStr, utf8Encode, h]

theorem utf8Encode_injective : Function.Injective utf8Encode := by
  intro a b h
  have := congrArg utf8DecodeStr h
  rwa [utf8DecodeStr_utf8Encode, utf8DecodeStr_utf8Encode] at this

/-- A Bigtable cell: one timestamped value stored at a (row, family, qualifier)
address.  Cells of a column are kept newest-first, so the head of a cell list
is the most-recent version (`cell[0]` in the source). -/
structure Cell where
  value : Bytes
deriving DecidableEq, Repr

/-- A Bigtable row, as surfaced by the data client: a row key and a mapping
from column family (text) to column qualifier (bytes) to the column's cells.
Mappings are modelled as association lists. -/
structure Row where
  row_key : Bytes
  cells : List (String × List (Bytes × List Cell))
deriving DecidableEq, Repr

/-- Association list lookup: `m.get(k)` on a Python dict built over distinct keys. -/
def assocGet {α β : Type} [DecidableEq α] : List (α × β) → α → Option β
  | [], _ => none
  | (k', v) :: rest, k => if k' = k then some v else assocGet rest k

/-- Association list update: apply `f` to the value at `k`, inserting `f d`
if `k` is absent. -/
def assocUpd {α β : Type} [DecidableEq α] (m : List (α × β)) (k : α) (d : β) (f : β → β) :
    List (α × β) :=
  match m with
  | [] => [(k, f d)]
  | (k', v) :: rest => if k' = k then (k', f v) :: rest else (k', v) :: assocUpd rest k d f

/-- `row.cells.get(family, {}).get(qualifier, [])` from the source's `amget`:
the cell list of the configured column, empty when the family or qualifier is
missing. -/
def rowCellsAt (r : Row) (fam : String) (qual : Bytes) : List Cell :=
  (assocGet ((assocGet r.cells fam).getD []) qual).getD []

/-- The effect of a `set_cell` mutation on an existing row: a new cell holding
`val` becomes the newest (head) cell of the configured column.  Models the
external client contract's set-cell apply. -/
def setCellInRow (r : Row) (fam : String) (qual : Bytes) (val : Bytes) : Row :=
  Row.mk r.row_key
    (assocUpd r.cells fam [] fun quals => assocUpd quals qual [] fun cs => Cell.mk val :: cs)

/-- A value-suppressing read (the source's `StripValueFilter`): rows come back
with their cell values emptied; only row keys matter to the caller. -/
def stripRow (r : Row) : Row :=
  Row.mk r.row_key
    (r.cells.map fun famEntry =>
      (famEntry.1, famEntry.2.map fun qualEntry =>
        (qualEntry.1, qualEntry.2.map fun _ => Cell.mk [])))

/-- A mutation submitted through `mutate_rows`, built in the source as a
`DirectRow` followed by `set_cell` (in `amset`) or `delete` (in `amdelete`). -/
inductive Mutation where
  | setCell (row_key : Bytes) (family : String) (qualifier : Bytes) (value : Bytes)
  | deleteRow (row_key : Bytes)
deriving DecidableEq, Repr

/-- The row key a mutation addresses. -/
def mutKey : Mutation → Bytes
  | Mutation.setCell rk _ _ _ => rk
  | Mutation.deleteRow rk => rk

/-- One call issued to the remote store client, with the request it carries.
Used to state which network interactions an operation performs. -/
inductive ClientCall where
  | readRowsByKeys (row_keys : List Bytes)
  | readRowsFiltered (stripValues : Bool)
  | readRowsRangeScan (startKey endKey : Bytes)
  | mutateRowsCall (mutations : List Mutation)
deriving DecidableEq, Repr

/-- The remote table's state: its rows.  Real Bigtable rows have pairwise
distinct keys; that well-formedness is the predicate `StoreWF` below. -/
abbrev StoreState := List Row

/-- Rows of a Bigtable table have pairwise distinct row keys. -/
abbrev StoreWF (st : StoreState) : Prop :=
  (st.map Row.row_key).Nodup

/-- Apply a set-cell mutation to the table: update the (unique) row with the
given key, or create the row when absent.  Models the external client's
mutation contract. -/
def applySetCell : StoreState → Bytes → String → Bytes → Bytes → StoreState
  | [], rk, fam, qual, val => [Row.mk rk [(fam, [(qual, [Cell.mk val])])]]
  | r :: rest, rk, fam, qual, val =>
    if r.row_key = rk then setCellInRow r fam qual val :: rest
    else r :: applySetCell rest rk fam qual val

/-- Apply one mutation to the table.  A row-delete removes the whole row,
every column family included. -/
def applyMutation (st : StoreState) : Mutation → StoreState
  | Mutation.setCell rk fam qual val => applySetCell st rk fam qual val
  | Mutation.deleteRow rk => st.filter fun r => !decide (r.row_key = rk)

/-- `table.mutate_rows(mutations)`: the batched write the client contract
provides; mutations apply in submission order. -/
def mutateRows (st : StoreState) (ms : List Mutation) : StoreState :=
  ms.foldl applyMutation st

/-- `table.read_rows(rows=row_keys)`: the batched read by explicit key list;
returns the table's rows whose key was requested. -/
def readRowsByKeys (st : StoreState) (row_keys : List Bytes) : List Row :=
  st.filter fun r => decide (r.row_key ∈ row_keys)

/-- `table.read_rows(row_set=...)` over one key range, start inclusive and end
exclusive (`add_row_range_from_keys`'s default bounds), with byte-wise
lexicographic key order. -/
def bytesLt : Bytes → Bytes → Bool
  | [], [] => false
  | [], _ :: _ => true
  | _ :: _, [] => false
  | a :: as, b :: bs => if a < b then true else if b < a then false else bytesLt as bs

/-- Non-strict byte-wise lexicographic order on row keys. -/
def bytesLe (x y : Bytes) : Bool :=
  bytesLt x y || decide (x = y)

/-- The rows of the half-open key range `[startKey, endKey)`. -/
def readRowsRange (st : StoreState) (startKey endKey : Bytes) : List Row :=
  st.filter fun r => bytesLe startKey r.row_key && bytesLt r.row_key endKey

/-- `table.read_rows(filter_=StripValueFilter())`: a whole-table scan that
suppresses value transfer, returning every row with values stripped. -/
def readRowsAllStripped (st : StoreState) : List Row :=
  st.map stripRow

/-- Insertion into a Python dict modelled as an association list: overwrite the
binding when the key is present, append it otherwise. -/
def pyDictInsert : List (Bytes × Row) → Bytes → Row → List (Bytes × Row)
  | [], k, v => [(k, v)]
  | (k', v') :: rest, k, v =>
    if k' = k then (k, v) :: rest else (k', v') :: pyDictInsert rest k v

/-- The dict comprehension `{row.row_key: row for row in rows}` from `amget`. -/
def pyDictOfRows (rows : List Row) : List (Bytes × Row) :=
  rows.foldl (fun m r => pyDictInsert m r.row_key r) []

/-- `row_maps.get(key)`: dict lookup, `None` when the key is unbound. -/
def pyDictGet : List (Bytes × Row) → Bytes → Option Row
  | [], _ => none
  | (k', v) :: rest, k => if k' = k then some v else pyDictGet rest k

/-- The first row of a list bearing a given key — the unique such row when the
keys are distinct. -/
def rowFind : List Row → Bytes → Option Row
  | [], _ => none
  | r :: rest, rk => if r.row_key = rk then some r else rowFind rest rk

/-- Modelled from the spec: the raw async data client (`BigtableDataClientAsync`),
an external handle constructed by the absent helper module; only its identity
(which optional project id it was built for) matters here. -/
structure BigtableDataClientAsync where
  project : Option String
deriving DecidableEq, Repr

/-- The lightweight table handle `engine.client.get_table(...)` returns: a
stateless reference scoped to one (instance, table, optional routing profile)
triple. -/
structure TableRef where
  instance_id : String
  table_id : String
  app_profile_id : Option String
deriving DecidableEq, Repr

/-- `client.get_table(instance_id, table_id, app_profile_id)` of the data
client contract. -/
def BigtableDataClientAsync.get_table (_c : BigtableDataClientAsync)
    (instance_id table_id : String) (app_profile_id : Option String) : TableRef :=
  TableRef.mk instance_id table_id app_profile_id

/-- Modelled from the spec: `BigtableEngine` (its module `engine.py` is not
under `src/`) owns the background execution context and the Remote Store
Client handle.  Its execution state is carried externally by the `Coro`
state-passing embedding below, so the structure holds the client reference. -/
structure BigtableEngine where
  client : BigtableDataClientAsync
deriving DecidableEq, Repr

/-- Modelled from the spec: the Engine factory the source calls as
`BigtableEngine.sync_initialize(client=...)` — constructs an Engine around an
already-created client (the background-context start is outside this model). -/
def BigtableEngine.initializeSync (client : BigtableDataClientAsync) : BigtableEngine :=
  BigtableEngine.mk client

/-- Modelled from the spec: `get_async_data_client(project_id)` from the absent
`common` module — builds a fresh raw data client for the optional project. -/
def get_async_data_client (project_id : Option String) : BigtableDataClientAsync :=
  BigtableDataClientAsync.mk project_id

/-- An asynchronous unit of work against the store: given the remote table's
state it produces a result, the new table state, and the client calls it
performed.  This is the embedding of the source's coroutines. -/
abbrev Coro (α : Type) := StoreState → α × StoreState × List ClientCall

/-- The core, async-only store (`AsyncBigtableByteStore.__init__`): records the
binding and acquires the table handle through the engine's client. -/
structure AsyncBigtableByteStore where
  engine : BigtableEngine
  instance_id : String
  table_id : String
  value_column_family : String
  value_column_qualifier : String
  table : TableRef
deriving DecidableEq, Repr

/-- `AsyncBigtableByteStore.create(**kwargs)`: the async factory, which just
invokes the constructor (`cls(**kwargs)`). -/
def AsyncBigtableByteStore.create (engine : BigtableEngine)
    (instance_id table_id value_column_family value_column_qualifier : String)
    (app_profile_id : Option String) : AsyncBigtableByteStore :=
  AsyncBigtableByteStore.mk engine instance_id table_id
    value_column_family value_column_qualifier
    (engine.client.get_table instance_id table_id app_profile_id)

/-- The result loop of `amget` applied to the batch-read response: build
`row_maps = {row.row_key: row for row in rows}`, then for each requested key
take the first cell's value of the configured column, `None` when the row is
absent from the response or lacks that column. -/
def amgetResults (s : AsyncBigtableByteStore) (rows : List Row) (row_keys : List Bytes) :
    List (Option Bytes) :=
  let row_maps := pyDictOfRows rows
  row_keys.map fun key =>
    match pyDictGet row_maps key with
    | some row =>
      match rowCellsAt row s.value_column_family (utf8Encode s.value_column_qualifier) with
      | c :: _ => some c.value
      | [] => none
    | none => none

/-- `AsyncBigtableByteStore.amget(keys)`: empty input short-circuits before any
client call; otherwise one batched `read_rows` by the UTF-8 encoded keys, then
one result per input key in input order. -/
def AsyncBigtableByteStore.amget (s : AsyncBigtableByteStore) (keys : List String) :
    Coro (List (Option Bytes)) := fun st =>
  if keys.isEmpty then ([], st, [])
  else
    let row_keys := keys.map utf8Encode
    let rows := readRowsByKeys st row_keys
    (amgetResults s rows row_keys, st, [ClientCall.readRowsByKeys row_keys])

/-- The mutation list `amset` builds: one `DirectRow` + `set_cell` per pair,
addressed by the UTF-8 encoded key at the configured column. -/
def amsetMutations (s : AsyncBigtableByteStore) (kv_pairs : List (String × Bytes)) :
    List Mutation :=
  kv_pairs.map fun kv =>
    Mutation.setCell (utf8Encode kv.1) s.value_column_family
      (utf8Encode s.value_column_qualifier) kv.2

/-- `AsyncBigtableByteStore.amset(kv_pairs)`: build the mutations, and submit
them as one batched `mutate_rows` only when the list is non-empty. -/
def AsyncBigtableByteStore.amset (s : AsyncBigtableByteStore)
    (kv_pairs : List (String × Bytes)) : Coro Unit := fun st =>
  let mutations := amsetMutations s kv_pairs
  if mutations.isEmpty then ((), st, [])
  else ((), mutateRows st mutations, [ClientCall.mutateRowsCall mutations])

/-- The mutation list `amdelete` builds: one `DirectRow` + `delete()` (a
whole-row delete) per key. -/
def amdeleteMutations (keys : List String) : List Mutation :=
  keys.map fun key => Mutation.deleteRow (utf8Encode key)

/-- `AsyncBigtableByteStore.amdelete(keys)`: build the row-delete mutations,
and submit them as one batched `mutate_rows` only when the list is non-empty. -/
def AsyncBigtableByteStore.amdelete (s : AsyncBigtableByteStore) (keys : List String) :
    Coro Unit := fun st =>
  let mutations := amdeleteMutations keys
  if mutations.isEmpty then ((), st, [])
  else ((), mutateRows st mutations, [ClientCall.mutateRowsCall mutations])

/-- The Python errors this development distinguishes, under the spec's
abstract names where it has them: `nameError` is a `NameError` raised when a
bare name is unbound in its module; `configurationError` is the
`ValueError("Cannot provide both 'engine' and 'async_data_client'.")` of
`create_sync`; `usageError` is the `Exception` raised by the guarded
constructor; `attributeError` is an `AttributeError` from resolving a missing
attribute. -/
inductive StoreError where
  | configurationError
  | usageError
  | attributeError (name : String)
  | nameError (name : String)
deriving DecidableEq, Repr

/-- The names bound at module level in `async_key_value_store.py`: its imports
(`asyncio`, `Thread`, the typing names, `BigtableEngine`,
`BigtableDataClientAsync`, `DirectRow`, `Row`, `Cell`) and the class the
module defines.  `StripValueFilter` and `RowSet`, referenced by
`ayield_keys`, are not among them. -/
def asyncStoreModuleNames : List String :=
  ["asyncio", "Thread", "Any", "AsyncIterator", "Dict", "Iterator", "List",
   "Optional", "Sequence", "Tuple", "BigtableEngine", "BigtableDataClientAsync",
   "DirectRow", "Row", "Cell", "AsyncBigtableByteStore"]

/-- Resolution of a bare name against the module's global namespace (builtins
such as `chr` and `ord` aside): `NameError` when the name was never imported
or defined. -/
def asyncStoreResolve (name : String) : Except StoreError Unit :=
  if asyncStoreModuleNames.contains name then Except.ok ()
  else Except.error (StoreError.nameError name)

/-- `AsyncBigtableByteStore.ayield_keys(prefix)`: the generator (collapsed
here to an eager run) branches on the prefix and then evaluates a bare name
the module never imports or defines — `StripValueFilter()` on the no/empty
prefix branch, `RowSet()` on the non-empty prefix branch (after computing
`end_key = prefix[:-1] + chr(ord(prefix[-1]) + 1)`, with `Char.ofNat`
modelling `chr` on valid scalar values).  Resolution of that name raises
`NameError` before any `read_rows` call; the continuation after a successful
resolution would be the keys-only whole-table scan, respectively the
half-open range scan to `end_key`, yielding row keys decoded to text. -/
def AsyncBigtableByteStore.ayield_keys (s : AsyncBigtableByteStore)
    (pre : Option String) : Coro (Except StoreError (List String)) := fun st =>
  if pre.getD "" = "" then
    match asyncStoreResolve "StripValueFilter" with
    | Except.ok _ =>
      let rows := readRowsAllStripped st
      (Except.ok (rows.map fun r => utf8DecodeStr r.row_key), st,
        [ClientCall.readRowsFiltered true])
    | Except.error e => (Except.error e, st, [])
  else
    let p := pre.getD ""
    let end_key : String :=
      String.mk (p.data.dropLast ++ [Char.ofNat ((p.data.getLastD 'A').toNat + 1)])
    match asyncStoreResolve "RowSet" with
    | Except.ok _ =>
      let rows := readRowsRange st (utf8Encode p) (utf8Encode end_key)
      (Except.ok (rows.map fun r => utf8DecodeStr r.row_key), st,
        [ClientCall.readRowsRangeScan (utf8Encode p) (utf8Encode end_key)])
    | Except.error e => (Except.error e, st, [])

/-- The specification's per-key read result: the first (most recent) cell value
of the configured column of the row stored under the key's UTF-8 encoding,
`None` when the row does not exist or exists but lacks that column. -/
def specGetOne (s : AsyncBigtableByteStore) (st : StoreState) (k : String) : Option Bytes :=
  match rowFind st (utf8Encode k) with
  | some row =>
    match rowCellsAt row s.value_column_family (utf8Encode s.value_column_qualifier) with
    | c :: _ => some c.value
    | [] => none
  | none => none

/-- A Python object identity, enough to model the module's capability token
`__create_key = object()`: the token itself versus any other object. -/
inductive PyObject where
  | createKey : PyObject
  | otherObject : Nat → PyObject
deriving DecidableEq, Repr

/-- The class attribute `BigtableByteStore.__create_key = object()`. -/
def createKeyObj : PyObject :=
  PyObject.createKey

/-- Python's private-name mangling: inside `class cls`, an identifier with two
leading underscores and at most one trailing underscore is rewritten to
`_cls` followed by the identifier. -/
def pythonMangle (cls attr : String) : String :=
  if attr.data.take 2 = ['_', '_'] ∧ attr.data.reverse.take 2 ≠ ['_', '_'] then
    "_" ++ cls ++ attr
  else attr

/-- Modelled from the spec: the dispatch methods `BigtableEngine` exposes
(the spec's `runAsSync` / `runAsAsync`); the facade's working call sites
(`mget`, `mset`, `amget`, `amset`) access them as `_run_as_sync` and
`_run_as_async`. -/
def engineDispatchAttrs : List String :=
  ["_run_as_sync", "_run_as_async"]

/-- Attribute resolution on an Engine object: succeeds exactly for the
dispatch methods it defines, raising `AttributeError` otherwise. -/
def BigtableEngine.getattr (_e : BigtableEngine) (name : String) : Except StoreError Unit :=
  if engineDispatchAttrs.contains name then Except.ok () else Except.error (StoreError.attributeError name)

/-- A pending asynchronous result: what the Engine's run-as-async dispatch
hands back.  The wrapped operation runs only when the future is awaited. -/
structure PendingFuture (α : Type) where
  task : Coro α

/-- Awaiting a pending future: run the submitted operation on the current
table state. -/
def PendingFuture.force {α : Type} (f : PendingFuture α) : Coro α :=
  f.task

/-- Modelled from the spec: `engine._run_as_sync(coro)` blocks the caller until
the operation has run on the background context and returns its result. -/
def BigtableEngine._run_as_sync {α : Type} (_e : BigtableEngine) (op : Coro α) : Coro α :=
  op

/-- Modelled from the spec: `engine._run_as_async(coro)` submits the operation
to the background context and hands back an awaitable for it. -/
def BigtableEngine._run_as_async {α : Type} (_e : BigtableEngine) (op : Coro α) :
    PendingFuture α :=
  PendingFuture.mk op

/-- The public facade (`BigtableByteStore`): owns an Engine reference and the
async-core store (fields `_engine` and `__async_store`). -/
structure BigtableByteStore where
  engine : BigtableEngine
  async_store : AsyncBigtableByteStore
deriving DecidableEq, Repr

/-- `BigtableByteStore.__init__(key, engine, async_store)`: rejects any caller
not presenting the module-private capability token. -/
def BigtableByteStore.init (key : PyObject) (engine : BigtableEngine)
    (async_store : AsyncBigtableByteStore) : Except StoreError BigtableByteStore :=
  if key = createKeyObj then Except.ok (BigtableByteStore.mk engine async_store)
  else Except.error StoreError.usageError

/-- The default value column family `DEFAULT_VALUE_COLUMN_FAMILY`. -/
def DEFAULT_VALUE_COLUMN_FAMILY : String := "kv"

/-- The default value column qualifier `DEFAULT_VALUE_COLUMN_QUALIFIER`. -/
def DEFAULT_VALUE_COLUMN_QUALIFIER : String := "val"

/-- `BigtableByteStore.create_sync(...)`: rejects `engine` and
`async_data_client` together; otherwise builds (or adopts) the Engine, then
runs the async-core factory through the Engine dispatch written as
`engine.__run_as_sync(coro)` — an attribute access that Python mangles to
`engine._BigtableByteStore__run_as_sync` because it occurs inside
`class BigtableByteStore`. -/
def BigtableByteStore.create_sync (instance_id table_id : String)
    (engine : Option BigtableEngine) (async_data_client : Option BigtableDataClientAsync)
    (project_id : Option String) (value_column_family value_column_qualifier : String)
    (app_profile_id : Option String) : Except StoreError BigtableByteStore :=
  if engine.isSome ∧ async_data_client.isSome then
    Except.error StoreError.configurationError
  else
    let eng := match engine with
      | some e => e
      | none =>
        let client := match async_data_client with
          | some c => c
          | none => get_async_data_client project_id
        BigtableEngine.initializeSync client
    match eng.getattr (pythonMangle "BigtableByteStore" "__run_as_sync") with
    | Except.ok _ =>
      let async_store := AsyncBigtableByteStore.create eng instance_id table_id
        value_column_family value_column_qualifier app_profile_id
      BigtableByteStore.init createKeyObj eng async_store
    | Except.error e => Except.error e

/-- `BigtableByteStore.create(...)`: the suspending factory.  It performs no
mutual-exclusion check on `engine` and `async_data_client`: a supplied engine
silently takes precedence (its docstring's note), the client being ignored.
The async-core factory is awaited directly. -/
def BigtableByteStore.create (instance_id table_id : String)
    (engine : Option BigtableEngine) (async_data_client : Option BigtableDataClientAsync)
    (project_id : Option String) (value_column_family value_column_qualifier : String)
    (app_profile_id : Option String) : Except StoreError BigtableByteStore :=
  let eng := match engine with
    | some e => e
    | none =>
      let client := match async_data_client with
        | some c => c
        | none => get_async_data_client project_id
      BigtableEngine.initializeSync client
  let async_store := AsyncBigtableByteStore.create eng instance_id table_id
    value_column_family value_column_qualifier app_profile_id
  BigtableByteStore.init createKeyObj eng async_store

/-- `BigtableByteStore.mget(keys)`: the blocking read, routed through
`self._engine._run_as_sync`. -/
def BigtableByteStore.mget (b : BigtableByteStore) (keys : List String) :
    Coro (List (Option Bytes)) :=
  b.engine._run_as_sync (b.async_store.amget keys)

/-- `BigtableByteStore.amget(keys)`: the suspending read — it awaits the
future returned by `self._engine._run_as_async` before returning. -/
def BigtableByteStore.amget (b : BigtableByteStore) (keys : List String) :
    Coro (List (Option Bytes)) := fun st =>
  (b.engine._run_as_async (b.async_store.amget keys)).force st

/-- `BigtableByteStore.mset(kv_pairs)`: the blocking write, routed through
`self._engine._run_as_sync`. -/
def BigtableByteStore.mset (b : BigtableByteStore) (kv_pairs : List (String × Bytes)) :
    Coro Unit :=
  b.engine._run_as_sync (b.async_store.amset kv_pairs)

/-- `BigtableByteStore.amset(kv_pairs)`: the suspending write — its body
`return self._engine._run_as_async(...)` hands the dispatch's future back
WITHOUT awaiting it, so the method completes before the submitted write has
run: no table-state change and no client call happen during the call itself. -/
def BigtableByteStore.amset (b : BigtableByteStore) (kv_pairs : List (String × Bytes)) :
    Coro (PendingFuture Unit) := fun st =>
  (b.engine._run_as_async (b.async_store.amset kv_pairs), st, [])

/-- The entry points `class BigtableByteStore` defines in
`key_value_store.py` (its complete method list). -/
def bigtableByteStoreEntryPoints : List String :=
  ["__init__", "create_sync", "create", "mget", "amget", "mset", "amset"]

/-- Whether an `Except` result is a success. -/
def exceptIsOk {ε α : Type} : Except ε α → Bool
  | Except.ok _ => true
  | Except.error _ => false

theorem assocGet_assocUpd_self {α β : Type} [DecidableEq α] (m : List (α × β)) (k : α)
    (d : β) (f : β → β) :
    assocGet (assocUpd m k d f) k = some (f ((assocGet m k).getD d)) := by
  induction m with
  | nil => simp [assocUpd, assocGet]
  | cons kv rest ih =>
    obtain ⟨k', v⟩ := kv
    by_cases h : k' = k
    · subst h
      simp [assocUpd, assocGet]
    · simp [assocUpd, assocGet, h, ih]

theorem row_key_setCellInRow (r : Row) (fam : String) (qual val : Bytes) :
    (setCellInRow r fam qual val).row_key = r.row_key := rfl

theorem rowCellsAt_setCellInRow (r : Row) (fam : String) (qual val : Bytes) :
    rowCellsAt (setCellInRow r fam qual val) fam qual = Cell.mk val :: rowCellsAt r fam qual := by
  simp [rowCellsAt, setCellInRow, assocGet_assocUpd_self]

theorem rowFind_applySetCell_self (st : StoreState) (rk : Bytes) (fam : String)
    (qual val : Bytes) :
    rowFind (applySetCell st rk fam qual val) rk =
      some (match rowFind st rk with
            | some r => setCellInRow r fam qual val
            | none => Row.mk rk [(fam, [(qual, [Cell.mk val])])]) := by
  induction st with
  | nil => simp [applySetCell, rowFind]
  | cons r rest ih =>
    by_cases h : r.row_key = rk
    · simp [applySetCell, h, rowFind, row_key_setCellInRow]
    · simp [applySetCell, h, rowFind, ih]

theorem rowFind_applySetCell_ne (st : StoreState) (rk rk' : Bytes) (fam : String)
    (qual val : Bytes) (h : rk' ≠ rk) :
    rowFind (applySetCell st rk fam qual val) rk' = rowFind st rk' := by
  induction st with
  | nil => simp [applySetCell, rowFind, Ne.symm h]
  | cons r rest ih =>
    by_cases hr : r.row_key = rk
    · have hr' : ¬ r.row_key = rk' := by rw [hr]; exact Ne.symm h
      simp [applySetCell, hr, rowFind, row_key_setCellInRow, hr', Ne.symm h]
    · simp [applySetCell, hr, rowFind, ih]

theorem rowFind_filterOut_self (st : StoreState) (rk : Bytes) :
    rowFind (st.filter fun r => !decide (r.row_key = rk)) rk = none := by
  induction st with
  | nil => rfl
  | cons r rest ih =>
    by_cases h : r.row_key = rk
    · simp [List.filter_cons, h, ih]
    · simp [List.filter_cons, h, rowFind, ih]

theorem rowFind_filterOut_ne (st : StoreState) (rk rk' : Bytes) (h : rk' ≠ rk) :
    rowFind (st.filter fun r => !decide (r.row_key = rk)) rk' = rowFind st rk' := by
  induction st with
  | nil => rfl
  | cons r rest ih =>
    by_cases hr : r.row_key = rk
    · have hr' : ¬ r.row_key = rk' := by rw [hr]; exact Ne.symm h
      simp [List.filter_cons, hr, rowFind, hr', ih, Ne.symm h]
    · simp [List.filter_cons, hr, rowFind, ih]

theorem mutateRows_cons (st : StoreState) (m : Mutation) (ms : List Mutation) :
    mutateRows st (m :: ms) = mutateRows (applyMutation st m) ms := rfl

theorem rowFind_mutateRows_ne (ms : List Mutation) :
    ∀ (st : StoreState) (rk : Bytes), rk ∉ ms.map mutKey →
      rowFind (mutateRows st ms) rk = rowFind st rk := by
  induction ms with
  | nil => intro st rk _; rfl
  | cons m ms ih =>
    intro st rk h
    simp only [List.map_cons, List.mem_cons] at h
    push_neg at h
    obtain ⟨h1, h2⟩ := h
    rw [mutateRows_cons, ih _ _ h2]
    cases m with
    | setCell rk' fam qual val =>
      exact rowFind_applySetCell_ne st rk' rk fam qual val (by simpa [mutKey] using h1)
    | deleteRow rk' =>
      exact rowFind_filterOut_ne st rk' rk (by simpa [mutKey] using h1)

theorem map_row_key_applySetCell (st : StoreState) (rk : Bytes) (fam : String)
    (qual val : Bytes) :
    (applySetCell st rk fam qual val).map Row.row_key =
      if rk ∈ st.map Row.row_key then st.map Row.row_key
      else st.map Row.row_key ++ [rk] := by
  induction st with
  | nil => simp [applySetCell]
  | cons r rest ih =>
    by_cases h : r.row_key = rk
    · simp [applySetCell, h, row_key_setCellInRow]
    · by_cases hm : rk ∈ rest.map Row.row_key
      · simp [applySetCell, h, ih, hm, Ne.symm h]
      · simp [applySetCell, h, ih, hm, Ne.symm h]

theorem StoreWF_applySetCell (st : StoreState) (rk : Bytes) (fam : String)
    (qual val : Bytes) (hWF : StoreWF st) :
    StoreWF (applySetCell st rk fam qual val) := by
  unfold StoreWF at *
  rw [map_row_key_applySetCell]
  by_cases hm : rk ∈ st.map Row.row_key
  · simpa [hm] using hWF
  · simp [hm, List.nodup_append, hWF]

theorem StoreWF_applyMutation (st : StoreState) (m : Mutation) (hWF : StoreWF st) :
    StoreWF (applyMutation st m) := by
  cases m with
  | setCell rk fam qual val => exact StoreWF_applySetCell st rk fam qual val hWF
  | deleteRow rk =>
    unfold StoreWF at *
    exact hWF.sublist (List.Sublist.map Row.row_key (List.filter_sublist st))

theorem StoreWF_mutateRows (ms : List Mutation) :
    ∀ st : StoreState, StoreWF st → StoreWF (mutateRows st ms) := by
  induction ms with
  | nil => intro st h; exact h
  | cons m ms ih =>
    intro st h
    rw [mutateRows_cons]
    exact ih _ (StoreWF_applyMutation st m h)

theorem pyDictGet_pyDictInsert (m : List (Bytes × Row)) (k k' : Bytes) (v : Row) :
    pyDictGet (pyDictInsert m k v) k' = if k = k' then some v else pyDictGet m k' := by
  induction m with
  | nil => simp [pyDictInsert, pyDictGet]
  | cons kv rest ih =>
    obtain ⟨k0, v0⟩ := kv
    by_cases h0 : k0 = k
    · subst h0
      by_cases h1 : k0 = k' <;> simp [pyDictInsert, pyDictGet, h1]
    · by_cases h1 : k0 = k'
      · subst h1
        have hk : ¬ k = k0 := fun hh => h0 hh.symm
        simp [pyDictInsert, h0, pyDictGet, hk]
      · simp [pyDictInsert, h0, pyDictGet, h1, ih]

theorem rowFind_eq_none_of_not_mem (rows : List Row) (k : Bytes)
    (h : k ∉ rows.map Row.row_key) : rowFind rows k = none := by
  induction rows with
  | nil => rfl
  | cons r rest ih =>
    simp only [List.map_cons, List.mem_cons] at h
    push_neg at h
    have h1 : ¬ r.row_key = k := fun hh => h.1 hh.symm
    simp [rowFind, h1, ih h.2]

theorem pyDictGet_foldl_aux (rows : List Row) :
    ∀ (m : List (Bytes × Row)) (k : Bytes), (rows.map Row.row_key).Nodup →
      pyDictGet (rows.foldl (fun acc r => pyDictInsert acc r.row_key r) m) k =
        match rowFind rows k with
        | some r => some r
        | none => pyDictGet m k := by
  induction rows with
  | nil => intro m k _; rfl
  | cons r rows ih =>
    intro m k hnd
    simp only [List.map_cons, List.nodup_cons] at hnd
    obtain ⟨hr, hnd'⟩ := hnd
    rw [List.foldl_cons, ih _ _ hnd']
    by_cases h : r.row_key = k
    · have hnone : rowFind rows k = none := by
        apply rowFind_eq_none_of_not_mem
        rw [← h]
        exact hr
      simp [hnone, rowFind, h, pyDictGet_pyDictInsert]
    · cases hrf : rowFind rows k with
      | some r' => simp [hrf, rowFind, h]
      | none => simp [hrf, rowFind, h, pyDictGet_pyDictInsert]

theorem pyDictGet_pyDictOfRows (rows : List Row) (k : Bytes)
    (hnd : (rows.map Row.row_key).Nodup) :
    pyDictGet (pyDictOfRows rows) k = rowFind rows k := by
  unfold pyDictOfRows
  rw [pyDictGet_foldl_aux rows [] k hnd]
  cases rowFind rows k <;> rfl

theorem rowFind_mem (rows : List Row) (k : Bytes) (r : Row) (h : rowFind rows k = some r) :
    r ∈ rows ∧ r.row_key = k := by
  induction rows with
  | nil => simp [rowFind] at h
  | cons r0 rest ih =>
    by_cases h0 : r0.row_key = k
    · simp [rowFind, h0] at h
      subst h
      exact ⟨List.mem_cons_self r0 rest, h0⟩
    · simp only [rowFind, if_neg h0] at h
      obtain ⟨hmem, hk⟩ := ih h
      exact ⟨List.mem_cons_of_mem r0 hmem, hk⟩

theorem rowFind_eq_none_iff (rows : List Row) (k : Bytes) :
    rowFind rows k = none ↔ ∀ r ∈ rows, r.row_key ≠ k := by
  induction rows with
  | nil => simp [rowFind]
  | cons r rest ih =>
    by_cases h : r.row_key = k
    · simp [rowFind, h]
    · simp [rowFind, h, ih]

theorem rowFind_perm (rows rows' : List Row) (hperm : rows.Perm rows')
    (hnd : (rows.map Row.row_key).Nodup) (k : Bytes) :
    rowFind rows k = rowFind rows' k := by
  cases h : rowFind rows k with
  | none =>
    symm
    rw [rowFind_eq_none_iff] at h ⊢
    exact fun r hr => h r (hperm.mem_iff.mpr hr)
  | some r =>
    obtain ⟨hmem, hkey⟩ := rowFind_mem _ _ _ h
    cases h' : rowFind rows' k with
    | none =>
      rw [rowFind_eq_none_iff] at h'
      exact absurd hkey (h' r (hperm.mem_iff.mp hmem))
    | some r' =>
      obtain ⟨hmem', hkey'⟩ := rowFind_mem _ _ _ h'
      have hr2 : r' ∈ rows := hperm.mem_iff.mpr hmem'
      have : r = r' :=
        List.inj_on_of_nodup_map hnd hmem hr2 (by rw [hkey, hkey'])
      rw [this]

theorem rowFind_readRowsByKeys (st : StoreState) (row_keys : List Bytes) (k : Bytes)
    (hk : k ∈ row_keys) :
    rowFind (readRowsByKeys st row_keys) k = rowFind st k := by
  induction st with
  | nil => rfl
  | cons r rest ih =>
    unfold readRowsByKeys at *
    by_cases h : r.row_key = k
    · have hmem : r.row_key ∈ row_keys := by rw [h]; exact hk
      simp [List.filter_cons, hmem, rowFind, h, hk]
    · by_cases hmem : r.row_key ∈ row_keys
      · simp [List.filter_cons, hmem, rowFind, h, ih]
      · simp [List.filter_cons, hmem, rowFind, h, ih]

theorem nodup_keys_readRowsByKeys (st : StoreState) (row_keys : List Bytes)
    (hWF : StoreWF st) :
    ((readRowsByKeys st row_keys).map Row.row_key).Nodup :=
  hWF.sublist (List.Sublist.map Row.row_key (List.filter_sublist st))

theorem amgetResults_eq_map (s : AsyncBigtableByteStore) (st : StoreState)
    (row_keys : List Bytes) (hWF : StoreWF st) :
    amgetResults s (readRowsByKeys st row_keys) row_keys =
      row_keys.map fun k =>
        match rowFind st k with
        | some row =>
          match rowCellsAt row s.value_column_family (utf8Encode s.value_column_qualifier) with
          | c :: _ => some c.value
          | [] => none
        | none => none := by
  unfold amgetResults
  apply List.map_congr_left
  intro k hk
  rw [pyDictGet_pyDictOfRows _ _ (nodup_keys_readRowsByKeys st row_keys hWF),
    rowFind_readRowsByKeys st row_keys k hk]

theorem amget_values (s : AsyncBigtableByteStore) (st : StoreState) (keys : List String)
    (hWF : StoreWF st) :
    (s.amget keys st).1 = keys.map (specGetOne s st) := by
  unfold AsyncBigtableByteStore.amget
  cases keys with
  | nil => simp
  | cons k ks =>
    simp only [List.isEmpty_cons, Bool.false_eq_true, if_false]
    rw [amgetResults_eq_map s st _ hWF, List.map_map]
    rfl

theorem amget_full (s : AsyncBigtableByteStore) (st : StoreState) (keys : List String)
    (hWF : StoreWF st) (hne : keys ≠ []) :
    s.amget keys st =
      (keys.map (specGetOne s st), st, [ClientCall.readRowsByKeys (keys.map utf8Encode)]) := by
  cases keys with
  | nil => exact absurd rfl hne
  | cons k ks =>
    have hv := amget_values s st (k :: ks) hWF
    unfold AsyncBigtableByteStore.amget at *
    simp only [List.isEmpty_cons, Bool.false_eq_true, if_false] at *
    exact Prod.ext hv rfl

theorem amset_state (s : AsyncBigtableByteStore) (kv_pairs : List (String × Bytes))
    (st : StoreState) :
    (s.amset kv_pairs st).2.1 = mutateRows st (amsetMutations s kv_pairs) := by
  unfold AsyncBigtableByteStore.amset
  cases kv_pairs with
  | nil => simp [amsetMutations, mutateRows]
  | cons p rest => simp [amsetMutations]

theorem specGetOne_amset (s : AsyncBigtableByteStore) :
    ∀ (kv_pairs : List (String × Bytes)) (st : StoreState) (k : String) (v : Bytes),
      (k, v) ∈ kv_pairs → (kv_pairs.map Prod.fst).Nodup →
      specGetOne s (mutateRows st (amsetMutations s kv_pairs)) k = some v := by
  intro kv_pairs
  induction kv_pairs with
  | nil =>
    intro st k v h _
    simp at h
  | cons p rest ih =>
    intro st k v hmem hnd
    obtain ⟨k0, v0⟩ := p
    simp only [List.map_cons, List.nodup_cons] at hnd
    obtain ⟨hk0, hnd'⟩ := hnd
    have hcons : amsetMutations s ((k0, v0) :: rest) =
        Mutation.setCell (utf8Encode k0) s.value_column_family
          (utf8Encode s.value_column_qualifier) v0 :: amsetMutations s rest := rfl
    rw [hcons, mutateRows_cons]
    rcases List.mem_cons.mp hmem with heq | hmem'
    · injection heq with h1 h2
      subst h1
      subst h2
      have hnotin : utf8Encode k ∉ (amsetMutations s rest).map mutKey := by
        intro hmem2
        simp only [amsetMutations, List.map_map] at hmem2
        obtain ⟨p', hp', hpe⟩ := List.mem_map.mp hmem2
        simp only [Function.comp, mutKey] at hpe
        exact hk0 (List.mem_map.mpr ⟨p', hp', utf8Encode_injective hpe⟩)
      unfold specGetOne
      rw [rowFind_mutateRows_ne _ _ _ hnotin]
      have happly : applyMutation st (Mutation.setCell (utf8Encode k) s.value_column_family
          (utf8Encode s.value_column_qualifier) v) =
          applySetCell st (utf8Encode k) s.value_column_family
            (utf8Encode s.value_column_qualifier) v := rfl
      rw [happly, rowFind_applySetCell_self]
      cases hrf : rowFind st (utf8Encode k) with
      | some r => simp [hrf, rowCellsAt_setCellInRow]
      | none => simp [hrf, rowCellsAt, assocGet]
    · exact ih _ k v hmem' hnd'

/-- A concrete raw data client used by the concrete instances below. -/
def exampleClient : BigtableDataClientAsync :=
  BigtableDataClientAsync.mk none

/-- A concrete Engine wrapping `exampleClient`. -/
def exampleEngine : BigtableEngine :=
  BigtableEngine.mk exampleClient

/-- A concrete async-core store bound to the default "kv"/"val" column. -/
def exampleStore : AsyncBigtableByteStore :=
  AsyncBigtableByteStore.create exampleEngine "instance" "table" "kv" "val" none

/-- A concrete facade over `exampleEngine` and `exampleStore`. -/
def exampleFacade : BigtableByteStore :=
  BigtableByteStore.mk exampleEngine exampleStore

/-- A row of the concrete table: key `k`, one cell `v` in the "kv"/"val" column. -/
def exampleRow (k : String) (v : Bytes) : Row :=
  Row.mk (utf8Encode k) [("kv", [(utf8Encode "val", [Cell.mk v])])]

/-- The concrete table of the spec's enumeration example:
keys `ab1`, `ab2`, `ac1`, `b1`. -/
def exampleTable : StoreState :=
  [exampleRow "ab1" [1], exampleRow "ab2" [2], exampleRow "ac1" [3], exampleRow "b1" [4]]

/-- C1: for every list of key-value pairs over pairwise-distinct keys, running
the async core's `amset` on those pairs and then `amget` on the same keys
returns exactly the byte values written, one per key, in the order the keys
are queried — over any well-formed initial table state. -/
theorem amset_amget_roundtrip (s : AsyncBigtableByteStore) (st : StoreState)
    (kv_pairs : List (String × Bytes)) (hWF : StoreWF st)
    (hnd : (kv_pairs.map Prod.fst).Nodup) :
    (s.amget (kv_pairs.map Prod.fst) ((s.amset kv_pairs st).2.1)).1 =
      kv_pairs.map fun kv => some kv.2 := by
  rw [amset_state,
    amget_values s _ _ (StoreWF_mutateRows (amsetMutations s kv_pairs) st hWF),
    List.map_map]
  apply List.map_congr_left
  intro p hp
  exact specGetOne_amset s kv_pairs st p.1 p.2 (by simpa using hp) hnd

/-- Witness for C1 at a concrete table and pair list. -/
theorem amset_amget_roundtrip_witness :
    StoreWF exampleTable
    ∧ ((([("k1", [10]), ("k2", [20])] : List (String × Bytes)).map Prod.fst).Nodup)
    ∧ (exampleStore.amget (([("k1", [10]), ("k2", [20])] : List (String × Bytes)).map Prod.fst)
        ((exampleStore.amset [("k1", [10]), ("k2", [20])] exampleTable).2.1)).1 =
        ([("k1", [10]), ("k2", [20])] : List (String × Bytes)).map (fun kv => some kv.2) :=
  ⟨by decide, by decide,
    amset_amget_roundtrip exampleStore exampleTable [("k1", [10]), ("k2", [20])]
      (by decide) (by decide)⟩

/-- C2: on non-empty input, `amget` issues exactly one batched row-read for
all keys and returns one result per input key in input order — `some` of the
first (most recent) cell value of the configured column, `none` when the row
is absent or lacks the column, duplicate keys receiving the identical per-key
result (`specGetOne`) — and the per-response computation is invariant under
any reordering of the rows the underlying store returns. -/
theorem amget_batched_ordered (s : AsyncBigtableByteStore) (st : StoreState)
    (keys : List String) (rows rows' : List Row) (rks : List Bytes) :
    (StoreWF st → keys ≠ [] →
      s.amget keys st =
        (keys.map (specGetOne s st), st, [ClientCall.readRowsByKeys (keys.map utf8Encode)]))
    ∧ ((rows.map Row.row_key).Nodup → rows.Perm rows' →
        amgetResults s rows rks = amgetResults s rows' rks) := by
  constructor
  · intro hWF hne
    exact amget_full s st keys hWF hne
  · intro hnd hperm
    unfold amgetResults
    apply List.map_congr_left
    intro k _
    rw [pyDictGet_pyDictOfRows _ _ hnd,
      pyDictGet_pyDictOfRows _ _ ((hperm.map Row.row_key).nodup hnd),
      rowFind_perm rows rows' hperm hnd k]

/-- Witness for C2: a duplicated and a missing key over the concrete table,
and a reordered two-row response. -/
theorem amget_batched_ordered_witness :
    StoreWF exampleTable
    ∧ (["ab1", "zz", "ab1"] : List String) ≠ []
    ∧ (([exampleRow "x" [7], exampleRow "y" [8]].map Row.row_key).Nodup)
    ∧ ([exampleRow "x" [7], exampleRow "y" [8]].Perm [exampleRow "y" [8], exampleRow "x" [7]])
    ∧ exampleStore.amget ["ab1", "zz", "ab1"] exampleTable =
        (["ab1", "zz", "ab1"].map (specGetOne exampleStore exampleTable), exampleTable,
          [ClientCall.readRowsByKeys (["ab1", "zz", "ab1"].map utf8Encode)])
    ∧ amgetResults exampleStore [exampleRow "x" [7], exampleRow "y" [8]] [utf8Encode "x"]
        = amgetResults exampleStore [exampleRow "y" [8], exampleRow "x" [7]] [utf8Encode "x"] :=
  ⟨by decide, by decide, by decide, by decide,
    (amget_batched_ordered exampleStore exampleTable ["ab1", "zz", "ab1"]
      [exampleRow "x" [7], exampleRow "y" [8]] [exampleRow "y" [8], exampleRow "x" [7]]
      [utf8Encode "x"]).1 (by decide) (by decide),
    (amget_batched_ordered exampleStore exampleTable ["ab1", "zz", "ab1"]
      [exampleRow "x" [7], exampleRow "y" [8]] [exampleRow "y" [8], exampleRow "x" [7]]
      [utf8Encode "x"]).2 (by decide) (by decide)⟩

/-- C3: `amget` on the empty key list returns the empty list, and each of
`amget`, `amset`, `amdelete` on empty input performs no client call and leaves
the table untouched. -/
theorem empty_ops_no_client_calls (s : AsyncBigtableByteStore) (st : StoreState) :
    s.amget [] st = ([], st, []) ∧ s.amset [] st = ((), st, [])
    ∧ s.amdelete [] st = ((), st, []) :=
  ⟨rfl, rfl, rfl⟩

/-- C4: `amdelete([k])` submits one batched write holding a single whole-row
delete mutation for the key's row, and a subsequent `amget([k])` returns
`[none]` — whether or not `k` was ever written. -/
theorem amdelete_removes_row (s : AsyncBigtableByteStore) (st : StoreState) (k : String)
    (hWF : StoreWF st) :
    (s.amget [k] ((s.amdelete [k] st).2.1)).1 = [none]
    ∧ (s.amdelete [k] st).2.2
        = [ClientCall.mutateRowsCall [Mutation.deleteRow (utf8Encode k)]] := by
  constructor
  · have hst : (s.amdelete [k] st).2.1
        = st.filter (fun r => !decide (r.row_key = utf8Encode k)) := rfl
    have hWF' : StoreWF (st.filter fun r => !decide (r.row_key = utf8Encode k)) :=
      hWF.sublist (List.Sublist.map Row.row_key (List.filter_sublist st))
    rw [hst, amget_values s _ _ hWF']
    simp [specGetOne, rowFind_filterOut_self]
  · rfl

/-- Witness for C4: deleting the present key `ab1` of the concrete table. -/
theorem amdelete_removes_row_witness :
    StoreWF exampleTable
    ∧ (exampleStore.amget ["ab1"] ((exampleStore.amdelete ["ab1"] exampleTable).2.1)).1 = [none]
    ∧ (exampleStore.amdelete ["ab1"] exampleTable).2.2
        = [ClientCall.mutateRowsCall [Mutation.deleteRow (utf8Encode "ab1")]] :=
  ⟨by decide,
    (amdelete_removes_row exampleStore exampleTable "ab1" (by decide)).1,
    (amdelete_removes_row exampleStore exampleTable "ab1" (by decide)).2⟩

/-- C5: `ayield_keys` never yields a key.  With an absent or empty prefix it
fails with `NameError` on the unbound name `StripValueFilter`, and with a
non-empty prefix it fails with `NameError` on the unbound name `RowSet` — in
every case before any client call and with the table untouched, so the
claimed keys-only whole-table scan and half-open prefix-range scan are
unreachable. -/
theorem ayield_keys_name_error (s : AsyncBigtableByteStore) (st : StoreState) (p : String) :
    s.ayield_keys none st
        = (Except.error (StoreError.nameError "StripValueFilter"), st, [])
    ∧ s.ayield_keys (some "") st
        = (Except.error (StoreError.nameError "StripValueFilter"), st, [])
    ∧ (p ≠ "" → s.ayield_keys (some p) st
        = (Except.error (StoreError.nameError "RowSet"), st, [])) := by
  refine ⟨rfl, rfl, ?_⟩
  intro hne
  simp only [AsyncBigtableByteStore.ayield_keys, Option.getD_some, if_neg hne]
  rfl

/-- Witness for C5's failing input: over the table with keys `ab1`, `ab2`,
`ac1`, `b1`, enumeration with the spec example's prefix `ab` raises
`NameError` instead of yielding `ab1` and `ab2`. -/
theorem ayield_keys_name_error_witness :
    ("ab" : String) ≠ ""
    ∧ exampleStore.ayield_keys (some "ab") exampleTable
        = (Except.error (StoreError.nameError "RowSet"), exampleTable, []) :=
  ⟨by decide,
    (ayield_keys_name_error exampleStore exampleTable "ab").2.2 (by decide)⟩

/-- C6 counterexample: the suspending factory `create`, handed both an
existing Engine and a raw async data client, does not fail with a
configuration error — it returns a store. -/
theorem create_accepts_both_engine_and_client :
    exceptIsOk (BigtableByteStore.create "instance" "table" (some exampleEngine)
      (some exampleClient) none "kv" "val" none) = true := by
  decide

/-- C6 amended: supplying both an Engine and a raw async data client makes the
blocking `create_sync` fail with the configuration error, while the
suspending `create` does not fail — it builds the store from the supplied
Engine, ignoring the client. -/
theorem create_sync_rejects_both_create_ignores (instance_id table_id : String)
    (e : BigtableEngine) (c : BigtableDataClientAsync) (project_id : Option String)
    (fam qual : String) (app_profile_id : Option String) :
    BigtableByteStore.create_sync instance_id table_id (some e) (some c) project_id
        fam qual app_profile_id = Except.error StoreError.configurationError
    ∧ BigtableByteStore.create instance_id table_id (some e) (some c) project_id
        fam qual app_profile_id
      = Except.ok (BigtableByteStore.mk e
          (AsyncBigtableByteStore.create e instance_id table_id fam qual app_profile_id)) := by
  constructor
  · rfl
  · rfl

/-- C7 evaluation: `create_sync` never returns a store.  With both an Engine
and a client supplied it raises the configuration error; on every other input
it fails with `AttributeError` on `_BigtableByteStore__run_as_sync` — the
Python-mangled form of the `engine.__run_as_sync(coro)` dispatch its body
performs — a method the Engine does not define (the facade's own working call
sites spell it `_run_as_sync`). -/
theorem create_sync_always_fails (instance_id table_id : String)
    (engine : Option BigtableEngine) (async_data_client : Option BigtableDataClientAsync)
    (project_id : Option String) (fam qual : String) (app_profile_id : Option String) :
    exceptIsOk (BigtableByteStore.create_sync instance_id table_id engine async_data_client
        project_id fam qual app_profile_id) = false
    ∧ BigtableByteStore.create_sync "instance" "table" (some exampleEngine) none none
        "kv" "val" none
      = Except.error (StoreError.attributeError "_BigtableByteStore__run_as_sync") := by
  constructor
  · have hm : pythonMangle "BigtableByteStore" "__run_as_sync" ∉ engineDispatchAttrs := by
      decide
    unfold BigtableByteStore.create_sync
    cases engine <;> cases async_data_client <;>
      simp [BigtableEngine.getattr, hm, exceptIsOk]
  · rfl

/-- C8 counterexample: the facade class defines no delete entry point and no
key-enumeration entry point, neither blocking nor suspending, so it does not
expose all four byte-store operations. -/
theorem facade_missing_delete_enumeration :
    ¬ ("mdelete" ∈ bigtableByteStoreEntryPoints ∨ "amdelete" ∈ bigtableByteStoreEntryPoints
       ∨ "yield_keys" ∈ bigtableByteStoreEntryPoints
       ∨ "ayield_keys" ∈ bigtableByteStoreEntryPoints) := by
  decide

/-- C8 amended: the facade exposes two of the four byte-store operations — get
and set — each as a blocking entry point routed through the Engine's
run-as-sync dispatch and a suspending entry point consuming the run-as-async
dispatch; delete and prefix key enumeration have no facade entry points. -/
theorem facade_exposes_get_set_pairs (b : BigtableByteStore) (keys : List String)
    (kv_pairs : List (String × Bytes)) (st : StoreState) :
    ("mget" ∈ bigtableByteStoreEntryPoints ∧ "amget" ∈ bigtableByteStoreEntryPoints
      ∧ "mset" ∈ bigtableByteStoreEntryPoints ∧ "amset" ∈ bigtableByteStoreEntryPoints
      ∧ "mdelete" ∉ bigtableByteStoreEntryPoints ∧ "amdelete" ∉ bigtableByteStoreEntryPoints
      ∧ "yield_keys" ∉ bigtableByteStoreEntryPoints
      ∧ "ayield_keys" ∉ bigtableByteStoreEntryPoints)
    ∧ BigtableByteStore.mget b keys st
        = BigtableEngine._run_as_sync b.engine (AsyncBigtableByteStore.amget b.async_store keys) st
    ∧ BigtableByteStore.mset b kv_pairs st
        = BigtableEngine._run_as_sync b.engine
            (AsyncBigtableByteStore.amset b.async_store kv_pairs) st
    ∧ BigtableByteStore.amget b keys st
        = (BigtableEngine._run_as_async b.engine
            (AsyncBigtableByteStore.amget b.async_store keys)).force st
    ∧ (BigtableByteStore.amset b kv_pairs st).1
        = BigtableEngine._run_as_async b.engine
            (AsyncBigtableByteStore.amset b.async_store kv_pairs) :=
  ⟨by decide, rfl, rfl, rfl, rfl⟩

/-- C10: the facade's suspending read awaits the Engine dispatch — it returns
exactly what the async core's read produces, effects included — while the
facade's suspending write returns the dispatch's pending future without
awaiting it: the call completes with the table unchanged and no client call
issued, the submitted write running only when the future is forced; a
non-empty core write does issue a client call when it actually runs. -/
theorem facade_amset_unawaited (b : BigtableByteStore) (keys : List String)
    (kv_pairs : List (String × Bytes)) (st st' : StoreState) :
    BigtableByteStore.amget b keys st = AsyncBigtableByteStore.amget b.async_store keys st
    ∧ (BigtableByteStore.amset b kv_pairs st).2.1 = st
    ∧ (BigtableByteStore.amset b kv_pairs st).2.2 = []
    ∧ ((BigtableByteStore.amset b kv_pairs st).1).force st'
        = AsyncBigtableByteStore.amset b.async_store kv_pairs st'
    ∧ (kv_pairs ≠ [] →
        (AsyncBigtableByteStore.amset b.async_store kv_pairs st).2.2 ≠ []) := by
  refine ⟨rfl, rfl, rfl, rfl, ?_⟩
  intro hne
  cases kv_pairs with
  | nil => exact absurd rfl hne
  | cons p rest => simp [AsyncBigtableByteStore.amset, amsetMutations]

/-- Witness for C10: a one-pair write through the concrete facade. -/
theorem facade_amset_unawaited_witness :
    ([("k", [1])] : List (String × Bytes)) ≠ []
    ∧ (AsyncBigtableByteStore.amset exampleFacade.async_store [("k", [1])] exampleTable).2.2
        ≠ [] :=
  ⟨by decide,
    (facade_amset_unawaited exampleFacade [] [("k", [1])] exampleTable
      exampleTable).2.2.2.2 (by decide)⟩
